import Mathlib

/-!
Shallow embedding of the EventWhisper filter pipeline
(`eventwhisper/evtxio/evtxio.py` and the `eventwhisper/utils/*` normalizers).

Python strings are modelled as Lean `String` (a sequence of unicode code
points, matching Python `str` indexing).  Python whitespace stripping is
modelled over the ASCII whitespace set.  External collaborators that the
source calls but that are not part of this repository (`json.loads`,
`datetime.fromisoformat`, `datetime.strptime`, `datetime.now`, the binary
EVTX decoder, and the configuration constants `RESULTS_LIMIT`/`SCAN_LIMIT`
from the config module) are supplied as parameters in an `Env` structure,
so every theorem quantifies over their behaviour.
-/

namespace EventWhisper

/-- ASCII whitespace, the character set Python `str.strip()` removes on
ASCII inputs. -/
def isPyWs (c : Char) : Bool :=
  c = ' ' || c = '\t' || c = '\n' || c = '\r' || c = '\x0b' || c = '\x0c'

/-- Python `str.strip()` on a list of code points. -/
def pyStrip (l : List Char) : List Char :=
  ((l.dropWhile isPyWs).reverse.dropWhile isPyWs).reverse

/-- Python `str.strip()` on a string. -/
def pyStripS (s : String) : String :=
  String.mk (pyStrip s.data)

/-- Python `s.split(sep)` for a one-character separator: split on every
occurrence, keeping empty parts; the empty string gives `[[]]`. -/
def splitOnCharL (sep : Char) : List Char → List (List Char)
  | [] => [[]]
  | c :: cs =>
    if c = sep then [] :: splitOnCharL sep cs
    else
      match splitOnCharL sep cs with
      | h :: t => (c :: h) :: t
      | [] => [[c]]

/-- Python `s.split(sep)` for a one-character separator, on strings. -/
def splitPy (sep : Char) (s : String) : List String :=
  (splitOnCharL sep s.data).map String.mk

/-- Python `s.lower()` (ASCII case mapping). -/
def pyToLower (s : String) : String :=
  String.mk (s.data.map Char.toLower)

/-- Python `s.upper()` (ASCII case mapping). -/
def pyToUpper (s : String) : String :=
  String.mk (s.data.map Char.toUpper)

/-- Python `s.startswith(pre)`. -/
def startsWithPy (s pre : String) : Bool :=
  pre.data.isPrefixOf s.data

/-- Python `s.endswith(suf)`. -/
def endsWithPy (s suf : String) : Bool :=
  suf.data.reverse.isPrefixOf s.data.reverse

/-- Python `s[:-n]`: drop the last `n` characters. -/
def dropRightPy (n : Nat) (s : String) : String :=
  String.mk (s.data.take (s.data.length - n))

/-- Python `c in s` for a single character. -/
def containsPy (s : String) (c : Char) : Bool :=
  s.data.contains c

/-- Python `sep.join(parts)`. -/
def joinPy (sep : String) : List String → String
  | [] => ""
  | [x] => x
  | x :: xs => x ++ sep ++ joinPy sep xs

/-- The `_QUOTE_PAIRS` table of `normalize_wrapping_quotes.py`:
opening delimiter paired with its closing delimiter. -/
def quotePairs : List (Char × Char) :=
  [('"', '"'), ('\'', '\''), (Char.ofNat 96, Char.ofNat 96),
   ('“', '”'), ('‘', '’'), ('«', '»'), ('‹', '›')]

/-- `_QUOTE_PAIRS.get(first)`: the closing delimiter for an opening one. -/
def closerOf (c : Char) : Option Char :=
  (quotePairs.find? (fun p => p.1 == c)).map Prod.snd

/-- One whole run of the `while` loop of `normalize_wrapping_quotes`,
written with explicit fuel so that it is structurally recursive.  Each
iteration strips whitespace, then removes one matching delimiter pair from
the two ends if both are present and the string still has at least two
characters.  Every iteration shortens the list by at least two characters,
so fuel `l.length` is always sufficient; the fuel-exhausted branch is
unreachable when the fuel is at least the length (see `nwqFuel_fuel_irrel`). -/
def nwqFuel : Nat → List Char → List Char
  | 0, l => pyStrip l
  | fuel + 1, l =>
    let t := pyStrip l
    match t with
    | c1 :: c2 :: rest =>
      match closerOf c1 with
      | some closer =>
        if (c2 :: rest).getLast (List.cons_ne_nil _ _) = closer then
          nwqFuel fuel ((c2 :: rest).dropLast)
        else t
      | none => t
    | _ => t

/-- `normalize_wrapping_quotes` of `normalize_wrapping_quotes.py` on a
list of code points. -/
def nwqL (l : List Char) : List Char :=
  nwqFuel l.length l

/-- `normalize_wrapping_quotes(s)`: strip whitespace, then repeatedly
remove one matching wrapping delimiter pair (re-stripping in between)
until none matches or fewer than two characters remain. -/
def normalize_wrapping_quotes (s : String) : String :=
  String.mk (nwqL s.data)

theorem length_dropWhile_le (p : Char → Bool) (l : List Char) :
    (l.dropWhile p).length ≤ l.length := by
  induction l with
  | nil => simp [List.dropWhile]
  | cons a l ih =>
    rw [List.dropWhile_cons]
    split
    · exact Nat.le_trans ih (Nat.le_succ _)
    · simp

theorem pyStrip_length_le (l : List Char) : (pyStrip l).length ≤ l.length := by
  unfold pyStrip
  calc ((l.dropWhile isPyWs).reverse.dropWhile isPyWs).reverse.length
      = ((l.dropWhile isPyWs).reverse.dropWhile isPyWs).length := List.length_reverse _
    _ ≤ (l.dropWhile isPyWs).reverse.length := length_dropWhile_le _ _
    _ = (l.dropWhile isPyWs).length := List.length_reverse _
    _ ≤ l.length := length_dropWhile_le _ _

theorem nwqFuel_fuel_irrel (f : Nat) :
    ∀ l : List Char, l.length ≤ f → nwqFuel (f + 1) l = nwqFuel f l := by
  induction f with
  | zero =>
    intro l hl
    have hnil : l = [] := List.length_eq_zero.mp (Nat.le_zero.mp hl)
    subst hnil
    rfl
  | succ f ih =>
    intro l hl
    rw [nwqFuel, nwqFuel]
    cases ht : pyStrip l with
    | nil => rfl
    | cons c1 t1 =>
      cases t1 with
      | nil => rfl
      | cons c2 rest =>
        dsimp only
        cases hc : closerOf c1 with
        | none => rfl
        | some closer =>
          dsimp only
          by_cases hlast : (c2 :: rest).getLast (List.cons_ne_nil _ _) = closer
          · rw [if_pos hlast, if_pos hlast]
            apply ih
            have h1 := pyStrip_length_le l
            rw [ht] at h1
            simp only [List.length_cons, List.length_dropLast] at h1 ⊢
            omega
          · rw [if_neg hlast, if_neg hlast]

/-- Decoded JSON tree (the Python value space produced by `json.loads`),
plus Python scalars that flow through the same code paths.  `null` doubles
as the Python `None` object, exactly as in the source, where a stored JSON
`null` and an absent key are both the Python value `None`. -/
inductive JVal where
  | null
  | bool (b : Bool)
  | int (n : Int)
  | str (s : String)
  | arr (elems : List JVal)
  | obj (entries : List (String × JVal))

/-- `value is None` test. -/
def JVal.isNull : JVal → Bool
  | .null => true
  | _ => false

/-- Python dict key lookup on a decoded object (keys are unique after
`json.loads`, so first-match association lookup models it). -/
def lookupKey (entries : List (String × JVal)) (k : String) : Option JVal :=
  (entries.find? (fun e => e.1 == k)).map (fun e => e.2)

/-- Python `str.isdigit()` restricted to ASCII: nonempty and all digits. -/
def isDigitStr (s : String) : Bool :=
  !s.data.isEmpty && s.data.all Char.isDigit

/-- Numeric value of an all-digit string (`int(part)` on an `isdigit` part). -/
def digitsToNat (s : String) : Nat :=
  s.data.foldl (fun a c => a * 10 + (c.toNat - 48)) 0

/-- `_get_dotted` of `evtxio.py`: walk the dot-separated path from the
root; dict key present descends, in-bounds numeric index into a list
descends, anything else resolves to `None` (`.null`). -/
def getDottedGo : JVal → List String → JVal
  | cur, [] => cur
  | cur, part :: rest =>
    match cur with
    | .obj entries =>
      match lookupKey entries part with
      | some v => getDottedGo v rest
      | none => .null
    | .arr elems =>
      if isDigitStr part then
        match elems.get? (digitsToNat part) with
        | some v => getDottedGo v rest
        | none => .null
      else .null
    | _ => .null

/-- `_get_dotted(obj, dotted)`, splitting the path on `"."`. -/
def getDotted (obj : JVal) (dotted : String) : JVal :=
  getDottedGo obj (splitPy '.' dotted)

/-- Python `int(s, 10)` digit-run parsing after an optional sign: at least
one ASCII digit, with single underscores allowed between digits.
`pyDigitsGo` consumes the characters after the first digit. -/
def pyDigitsGo (acc : Nat) : List Char → Option Nat
  | [] => some acc
  | ['_'] => none
  | '_' :: c :: cs =>
    if c.isDigit then pyDigitsGo (acc * 10 + (c.toNat - 48)) cs else none
  | c :: cs =>
    if c.isDigit then pyDigitsGo (acc * 10 + (c.toNat - 48)) cs else none

/-- Unsigned digit run of `int(s, 10)`. -/
def pyDigits : List Char → Option Nat
  | [] => none
  | c :: cs => if c.isDigit then pyDigitsGo (c.toNat - 48) cs else none

/-- Python `int(s, 10)` on a string (base 10, ASCII): surrounding
whitespace stripped, one optional sign, then a digit run; anything else
raises `ValueError`, modelled as `none`. -/
def pyIntOfString (s : String) : Option Int :=
  match pyStrip s.data with
  | [] => none
  | c :: cs =>
    if c = '-' then (pyDigits cs).map (fun n => -(n : Int))
    else if c = '+' then (pyDigits cs).map (fun n => (n : Int))
    else (pyDigits (c :: cs)).map (fun n => (n : Int))

/-- Structural size of a decoded value, used as fuel for recursions that
descend through dict entries. -/
def JVal.size : JVal → Nat
  | .null => 1
  | .bool _ => 1
  | .int _ => 1
  | .str _ => 1
  | .arr elems => 1 + sizeElems elems
  | .obj entries => 1 + sizeEntries entries
where
  sizeElems : List JVal → Nat
    | [] => 0
    | v :: vs => v.size + sizeElems vs
  sizeEntries : List (String × JVal) → Nat
    | [] => 0
    | e :: es => 1 + e.2.size + sizeEntries es

/-- `_as_event_id` of `evtxio.py` with explicit fuel for the dict-unwrap
recursion; each unwrap descends into a structurally smaller value, so fuel
`JVal.size v` is always sufficient. -/
def asEventIdFuel : Nat → JVal → Option Int
  | _, .null => none
  | _, .bool b => some (if b then 1 else 0)
  | _, .int n => some n
  | _, .str s => pyIntOfString s
  | _, .arr _ => none
  | 0, .obj _ => none
  | fuel + 1, .obj entries =>
    match lookupKey entries "#text" with
    | some v => asEventIdFuel fuel v
    | none =>
      match lookupKey entries "value" with
      | some v => asEventIdFuel fuel v
      | none =>
        match lookupKey entries "Value" with
        | some v => asEventIdFuel fuel v
        | none => none

/-- `_as_event_id(value)`: `None` stays `None`; a Python `int` (including
`bool`, an `int` subclass: `True` is `1`, `False` is `0`) is returned; a
string goes through `int(...)` with `ValueError` giving `None`; a dict is
unwrapped at the first present key among `#text`, `value`, `Value` and the
coercion re-applied; anything else is `None`. -/
def asEventId (v : JVal) : Option Int :=
  asEventIdFuel v.size v

/-- Input domain of `normalize_int` in `normalize_value.py` (its `value`
parameter is `Any`): `bool` is kept distinct from `int` because Python
`isinstance(value, int)` is true for both. -/
inductive IntIn where
  | none
  | int (n : Int)
  | bool (b : Bool)
  | str (s : String)
  | other
deriving DecidableEq

/-- `normalize_int(value, default)` of `normalize_value.py`.  `None` gives
the default; an `int` is returned when positive, else `None`; a `bool`
takes the same `isinstance(value, int)` branch, so `True` (which equals
`1` and satisfies `value > 0`) is returned and `False` gives `None`; a
string is quote-stripped, whitespace-stripped and parsed base-10, positive
results returned; anything else gives `None`. -/
def normalize_int (value : IntIn) (default : Int) : Option Int :=
  match value with
  | .none => some default
  | .int n => if 0 < n then some n else none
  | .bool b => if b then some 1 else none
  | .str s =>
    match pyIntOfString (pyStripS (normalize_wrapping_quotes s)) with
    | some i => if 0 < i then some i else none
    | none => none
  | .other => none

/-- Python `repr()` of a decoded value, used by `str()` on containers.
String escaping inside `repr` is simplified to plain single quotes; the
claims never exercise tokens whose repr needs escapes. -/
def JVal.pyRepr : JVal → String
  | .null => "None"
  | .bool b => if b then "True" else "False"
  | .int n => toString n
  | .str s => "'" ++ s ++ "'"
  | .arr elems => "[" ++ joinPy ", " (pyReprElems elems) ++ "]"
  | .obj entries =>
    "\x7b" ++ joinPy ", " (pyReprEntries entries) ++ "\x7d"
where
  pyReprElems : List JVal → List String
    | [] => []
    | v :: vs => v.pyRepr :: pyReprElems vs
  pyReprEntries : List (String × JVal) → List String
    | [] => []
    | e :: es => ("'" ++ e.1 ++ "': " ++ e.2.pyRepr) :: pyReprEntries es

/-- Python `str()` of a decoded value (`str(tok)` in the list
normalizers): identity on strings, `None`/`True`/`False`/decimal for the
scalars, `repr` for containers. -/
def JVal.pyStr : JVal → String
  | .str s => s
  | .null => "None"
  | .bool b => if b then "True" else "False"
  | .int n => toString n
  | v => v.pyRepr

/-- `_split_multi` of `normalize_lists.py`: replace `;` by `,`, split on
`,`, strip each part, drop empties. -/
def splitMulti (s : String) : List String :=
  (((splitPy ',' (String.mk (s.data.map (fun c => if c = ';' then ',' else c))))).map
    pyStripS).filter (fun p => !p.isEmpty)

/-- `_maybe_load_json_array` of `normalize_lists.py`: a bracket-delimited
token is handed to `json.loads` (the abstract `parse` collaborator); only
a decoded list is accepted. -/
def maybeLoadJsonArray (parse : String → Option JVal) (s : String) :
    Option (List JVal) :=
  if startsWithPy s "[" && endsWithPy s "]" then
    match parse s with
    | some (.arr l) => some l
    | _ => none
  else none

/-- `add_number` of `normalize_int_list`: append if unseen (the `seen`
set always holds exactly the elements of `out`). -/
def addNum (out : List Int) (n : Int) : List Int :=
  if out.contains n then out else out ++ [n]

/-- `handle_token` of `normalize_int_list`, with fuel for the recursion
into decoded JSON arrays.  With the real `json.loads`, every recursion
level strictly shortens the token text, so fuel `(tok.pyStr).length + 1`
is always sufficient. -/
def handleTokenInt (parse : String → Option JVal) :
    Nat → List Int → JVal → List Int
  | 0, out, _ => out
  | fuel + 1, out, tok =>
    match tok with
    | .int n => addNum out n
    | _ =>
      let s := pyStripS (normalize_wrapping_quotes tok.pyStr)
      if s.isEmpty then out
      else
        match maybeLoadJsonArray parse s with
        | some arr => arr.foldl (handleTokenInt parse fuel) out
        | none =>
          let parts := let ps := splitMulti s; if ps.isEmpty then [s] else ps
          parts.foldl (fun o p =>
            let pn := pyStripS (normalize_wrapping_quotes p)
            if pn.isEmpty then o
            else
              let body := pn.data.dropWhile (fun c => c = '+' || c = '-')
              if !body.isEmpty && body.all Char.isDigit then
                match pyIntOfString pn with
                | some n => addNum o n
                | none => o
              else o) out

/-- `normalize_int_list(value)` of `normalize_lists.py`.  `None` gives
`[]`; a list or dict input is iterable (`_is_seq`), so its items (for a
dict: its keys) are handled one by one; any other value is handled as a
single token.  Output is de-duplicated preserving first-seen order. -/
def normalize_int_list (parse : String → Option JVal) (value : JVal) :
    List Int :=
  match value with
  | .null => []
  | .arr items =>
    items.foldl (fun o t => handleTokenInt parse (t.pyStr.length + 1) o t) []
  | .obj entries =>
    (entries.map (fun e => JVal.str e.1)).foldl
      (fun o t => handleTokenInt parse (t.pyStr.length + 1) o t) []
  | v => handleTokenInt parse (v.pyStr.length + 1) [] v

/-- `add_token` of `normalize_str_list`: strip quotes and whitespace,
drop empties, optionally lowercase, append if unseen. -/
def addTok (lowercase : Bool) (out : List String) (txt : String) :
    List String :=
  let s := pyStripS (normalize_wrapping_quotes txt)
  if s.isEmpty then out
  else
    let s := if lowercase then pyToLower s else s
    if out.contains s then out else out ++ [s]

/-- `handle_token` of `normalize_str_list`, with fuel as in
`handleTokenInt`. -/
def handleTokenStr (parse : String → Option JVal) (lowercase : Bool) :
    Nat → List String → JVal → List String
  | 0, out, _ => out
  | fuel + 1, out, tok =>
    let s := pyStripS (normalize_wrapping_quotes tok.pyStr)
    if s.isEmpty then out
    else
      match maybeLoadJsonArray parse s with
      | some arr => arr.foldl (handleTokenStr parse lowercase fuel) out
      | none =>
        let parts := let ps := splitMulti s; if ps.isEmpty then [s] else ps
        parts.foldl (addTok lowercase) out

/-- `normalize_str_list(value, lowercase)` of `normalize_lists.py`. -/
def normalize_str_list (parse : String → Option JVal) (value : JVal)
    (lowercase : Bool) : List String :=
  match value with
  | .null => []
  | .arr items =>
    items.foldl
      (fun o t => handleTokenStr parse lowercase (t.pyStr.length + 1) o t) []
  | .obj entries =>
    (entries.map (fun e => JVal.str e.1)).foldl
      (fun o t => handleTokenStr parse lowercase (t.pyStr.length + 1) o t) []
  | v => handleTokenStr parse lowercase (v.pyStr.length + 1) [] v

/-- Result of a Python datetime-producing parse: naive datetimes are
later assumed UTC (keeping the clock reading), aware datetimes are
converted to UTC (keeping the instant).  An instant is an integer point
on the UTC time line (microseconds are fine-grained enough and never
inspected). -/
inductive PyDT where
  | naive (clock : Int)
  | aware (instant : Int)
deriving DecidableEq

/-- The `dt.tzinfo is None` postlude of `normalize_timestamp`: naive means
assume UTC, aware means convert to UTC. -/
def PyDT.toUTC : PyDT → Int
  | .naive c => c
  | .aware i => i

/-- Input domain of `normalize_timestamp` (its `value` is
`datetime | str | None`, but record fields hand it arbitrary decoded
values, folded into `other`). -/
inductive TVal where
  | none
  | dt (d : PyDT)
  | str (s : String)
  | other
deriving DecidableEq

/-- External collaborators and configuration of the pipeline.
`parse` is `json.loads` (`none` = raised exception, or a non-list result
where only a list is accepted); `fromiso` is `datetime.fromisoformat`;
`strpFull`, `strpSec` and `strpDate` are `datetime.strptime` with formats
`%Y-%m-%d %H:%M:%S.%f`, `%Y-%m-%d %H:%M:%S` and `%Y-%m-%d` (these always
produce naive datetimes, i.e. plain UTC-assumed clock readings);
`utcNow` is the `datetime.now(timezone.utc)` sample taken at call start;
`RESULTS_LIMIT` and `SCAN_LIMIT` are the configuration constants imported
from `eventwhisper.utils.config`. -/
structure Env where
  parse : String → Option JVal
  fromiso : String → Option PyDT
  strpFull : String → Option Int
  strpSec : String → Option Int
  strpDate : String → Option Int
  utcNow : Int
  RESULTS_LIMIT : Int
  SCAN_LIMIT : Int

/-- The string branch of `normalize_timestamp` in
`normalize_timestamp.py`, without the fallback: quote-strip, drop a
trailing case-insensitive " UTC", rewrite a trailing "Z" to "+00:00",
then try `fromisoformat`; on failure try the space-separated
`strptime` formats (fractional first) when the text has both a space and
a colon, else the date-only format.  `none` means every attempt failed. -/
def parseTimestampStr (E : Env) (v : String) : Option Int :=
  let s := normalize_wrapping_quotes v
  let s := if endsWithPy (pyToUpper s) " UTC" then dropRightPy 4 s else s
  let s := if endsWithPy s "Z" then dropRightPy 1 s ++ "+00:00" else s
  match E.fromiso s with
  | some d => some d.toUTC
  | none =>
    if containsPy s ' ' && containsPy s ':' then
      if containsPy s '.' then E.strpFull s else E.strpSec s
    else E.strpDate s

/-- `normalize_timestamp(value, fallback)` of `normalize_timestamp.py`:
`None` and non-datetime non-string values give the fallback; a datetime
is normalized to UTC; a string is parsed by `parseTimestampStr`, every
failing attempt giving the fallback.  Never raises. -/
def normalize_timestamp (E : Env) (value : TVal) (fallback : Option Int) :
    Option Int :=
  match value with
  | .none => fallback
  | .dt d => some d.toUTC
  | .other => fallback
  | .str v =>
    match parseTimestampStr E v with
    | some i => some i
    | none => fallback

/-- `data.get("Event", {}) if isinstance(data, dict) else {}` in
`_project_fields`. -/
def eventRootOf (data : JVal) : JVal :=
  match data with
  | .obj entries =>
    match lookupKey entries "Event" with
    | some v => v
    | none => .obj []
  | _ => .obj []

/-- Python dict assignment `out[f] = val` on an insertion-ordered dict
modelled as an association list: overwrite in place if the key exists,
else append. -/
def dictSet (d : List (String × JVal)) (k : String) (v : JVal) :
    List (String × JVal) :=
  if d.any (fun e => e.1 == k) then
    d.map (fun e => if e.1 == k then (k, v) else e)
  else d ++ [(k, v)]

/-- `_project_fields(data, fields)` of `evtxio.py`: per requested path,
resolve from the root; if that gives `None` (a miss, or a stored JSON
null, indistinguishable in Python), retry one level inside the `Event`
envelope; store under the verbatim path string. -/
def projectFields (data : JVal) (fields : List String) :
    List (String × JVal) :=
  fields.foldl (fun out f =>
    let val := getDotted data f
    let val := if val.isNull then getDotted (eventRootOf data) f else val
    dictSet out f val) []

/-- `record.get("data")` can be absent, a string, or a non-string. -/
inductive PyField where
  | absent
  | str (s : String)
  | nonstr
deriving DecidableEq

/-- A RawRecord as yielded by `parser.records_json()`: the `data` payload
field and the `timestamp` field (fed to `normalize_timestamp`, hence a
`TVal`; an absent key is the Python `None`, i.e. `TVal.none`). -/
structure RawRecord where
  data : PyField
  timestamp : TVal

/-- Caller arguments of `iter_events_from_evtx`.  `isFile` models the
`path.is_file()` check on the (quote-stripped) path; `event_ids`,
`contains`, `not_contains` and `fields` take arbitrary Python values
(`JVal`, where `.null` is the Python `None` default); `end_` is the `end`
parameter (a Lean keyword). -/
structure Args where
  isFile : Bool
  start : TVal
  end_ : TVal
  results_limit : IntIn
  scan_limit : IntIn
  event_ids : JVal
  contains : JVal
  not_contains : JVal
  fields : JVal

/-- The normalized filter state of one `iter_events_from_evtx` call after
its argument-normalization prelude (lines 139-177 of `evtxio.py`). -/
structure Cfg where
  lim : Int
  cap : Int
  start? : Option Int
  end? : Option Int
  contains_lc : List String
  not_contains_lc : List String
  wanted_ids : List Int
  fields_norm : Option (List String)

/-- View of a parsed-JSON value as a `normalize_timestamp` input: a
decoded string is a Python `str`, a decoded null is the Python `None`,
everything else is neither datetime nor string. -/
def tvalOfJVal : JVal → TVal
  | .str s => .str s
  | .null => .none
  | _ => .other

/-- One time bound of the prelude:
`normalize_timestamp(bound, fallback=utc_now) if bound is not None else
None`. -/
def normBound (E : Env) (v : TVal) : Option Int :=
  match v with
  | .none => Option.none
  | w => normalize_timestamp E w (some E.utcNow)

/-- The overlap-removal step of the prelude (lines 164-169 of
`evtxio.py`): when both keyword lists are nonempty and intersect, terms
in the intersection are removed from both. -/
def deOverlap (c0 n0 : List String) : List String × List String :=
  if !c0.isEmpty && !n0.isEmpty then
    let ov := c0.filter (fun s => n0.contains s)
    if !ov.isEmpty then
      (c0.filter (fun s => !ov.contains s),
       n0.filter (fun s => !ov.contains s))
    else (c0, n0)
  else (c0, n0)

/-- The non-limit part of the argument-normalization prelude of
`iter_events_from_evtx`, given the two already-normalized limits:
clamp the limits to the configured ceilings, normalize the time bounds
with `utc_now` as fallback and swap them when both are present and
reversed, normalize and de-overlap the keyword lists, normalize the
wanted event-id set, and normalize the projection field list when
`fields` was provided. -/
def cfgBody (E : Env) (A : Args) (lim0 cap0 : Int) : Cfg :=
      let start1 := normBound E A.start
      let end1 := normBound E A.end_
      let se :=
        match start1, end1 with
        | some a, some b => if b < a then (some b, some a) else (some a, some b)
        | p, q => (p, q)
      let cn := deOverlap (normalize_str_list E.parse A.contains true)
        (normalize_str_list E.parse A.not_contains true)
      { lim := min lim0 E.RESULTS_LIMIT
        cap := min cap0 E.SCAN_LIMIT
        start? := se.1
        end? := se.2
        contains_lc := cn.1
        not_contains_lc := cn.2
        wanted_ids := normalize_int_list E.parse A.event_ids
        fields_norm :=
          match A.fields with
          | .null => Option.none
          | v => some (normalize_str_list E.parse v false) }

/-- The argument-normalization prelude of `iter_events_from_evtx`:
normalize both limits (`none` means the call returns no results), then
build the rest of the normalized state (`cfgBody`). -/
def buildCfg (E : Env) (A : Args) : Option Cfg :=
  match normalize_int A.results_limit E.RESULTS_LIMIT with
  | none => none
  | some lim0 =>
    match normalize_int A.scan_limit E.SCAN_LIMIT with
    | none => none
    | some cap0 => some (cfgBody E A lim0 cap0)

/-- Contiguous occurrence of `needle` in `hay` (an empty needle always
occurs). -/
def listIsInfix (needle : List Char) : List Char → Bool
  | [] => needle.isEmpty
  | c :: t => needle.isPrefixOf (c :: t) || listIsInfix needle t

/-- Python substring test `k in hay` (contiguous, case-sensitive). -/
def strIn (k hay : String) : Bool :=
  listIsInfix k.data hay.data

/-- The inclusive time-range test of the loop body (lines 225-228):
a record is dropped when a bound is present and strictly missed. -/
def timeOk (start? end? : Option Int) (dt : Int) : Bool :=
  (match start? with
   | some s => !decide (dt < s)
   | none => true) &&
  (match end? with
   | some e => !decide (e < dt)
   | none => true)

/-- One loop-body pass of `iter_events_from_evtx` over a record, after
the counter bookkeeping: `some` is the value the body yields, `none`
means `continue`.  Follows the source order: payload presence/type check,
cheap keyword include/exclude on the lowercased raw payload, JSON parse,
event-id filter, timestamp resolution (`SystemTime` path, else the
record's own timestamp), inclusive time-range test, projection. -/
def processRecord (E : Env) (cfg : Cfg) (r : RawRecord) : Option JVal :=
  match r.data with
  | .str ds =>
    if ds.isEmpty then none
    else
      let lower := pyToLower ds
      if !cfg.contains_lc.isEmpty
          && !(cfg.contains_lc.any (fun k => strIn k lower)) then none
      else if !cfg.not_contains_lc.isEmpty
          && cfg.not_contains_lc.any (fun k => strIn k lower) then none
      else
        match E.parse ds with
        | none => none
        | some data =>
          let eid := asEventId (getDotted data "Event.System.EventID")
          if !cfg.wanted_ids.isEmpty
              && (match eid with
                  | none => true
                  | some e => !cfg.wanted_ids.contains e) then none
          else
            let ts :=
              getDotted data "Event.System.TimeCreated.#attributes.SystemTime"
            let dt? :=
              match normalize_timestamp E (tvalOfJVal ts) Option.none with
              | some d => some d
              | none => normalize_timestamp E r.timestamp Option.none
            match dt? with
            | none => none
            | some dt =>
              if timeOk cfg.start? cfg.end? dt then
                some
                  (match cfg.fields_norm with
                   | some fl =>
                     if fl.isEmpty then data
                     else JVal.obj (projectFields data fl)
                   | none => data)
              else none
  | _ => none

/-- The record loop of `iter_events_from_evtx` (lines 184-236): before
any per-record work, stop when the scan count has reached the cap or the
returned count has reached the result limit; otherwise count the record
as scanned, process it, and yield when it survives.  Returns the yielded
values in arrival order together with the final scan count. -/
def filterLoop (E : Env) (cfg : Cfg) :
    List RawRecord → Int → Int → List JVal × Int
  | [], _, scanned => ([], scanned)
  | r :: rest, returned, scanned =>
    if cfg.cap ≤ scanned then ([], scanned)
    else if cfg.lim ≤ returned then ([], scanned)
    else
      match processRecord E cfg r with
      | none => filterLoop E cfg rest returned (scanned + 1)
      | some out =>
        let t := filterLoop E cfg rest (returned + 1) (scanned + 1)
        (out :: t.1, t.2)

/-- The records the decoder's lazy iteration delivers before a failure:
all of them when it never fails, or the prefix before the failing pull.
The `try/except` around the loop swallows the failure itself. -/
def deliveredRecords (stream : List RawRecord) (failAt : Option Nat) :
    List RawRecord :=
  match failAt with
  | none => stream
  | some i => stream.take i

/-- `iter_events_from_evtx` with its internal scan counter exposed:
nonexistent path gives no results, a limit normalizing to `None` gives no
results, otherwise the loop runs over the records the decoder delivers. -/
def iterEventsCount (E : Env) (A : Args) (stream : List RawRecord)
    (failAt : Option Nat) : List JVal × Int :=
  if !A.isFile then ([], 0)
  else
    match buildCfg E A with
    | none => ([], 0)
    | some cfg => filterLoop E cfg (deliveredRecords stream failAt) 0 0

/-- `iter_events_from_evtx(evtx_path, ...)`, as the list of values the
generator yields for a decoder stream that delivers `stream`, failing at
position `failAt` (if any). -/
def iter_events_from_evtx (E : Env) (A : Args) (stream : List RawRecord)
    (failAt : Option Nat) : List JVal :=
  (iterEventsCount E A stream failAt).1

theorem filterLoop_fst (E : Env) (cfg : Cfg) :
    ∀ (recs : List RawRecord) (ret sc : Int),
      (filterLoop E cfg recs ret sc).1
        = ((recs.take (cfg.cap - sc).toNat).filterMap
            (processRecord E cfg)).take (cfg.lim - ret).toNat := by
  intro recs
  induction recs with
  | nil => intro ret sc; simp [filterLoop]
  | cons r rest ih =>
    intro ret sc
    by_cases hc : cfg.cap ≤ sc
    · have h0 : (cfg.cap - sc).toNat = 0 := by omega
      rw [filterLoop, if_pos hc, h0]
      simp
    · by_cases hl : cfg.lim ≤ ret
      · have h0 : (cfg.lim - ret).toNat = 0 := by omega
        rw [filterLoop, if_neg hc, if_pos hl, h0]
        simp
      · have hcap : (cfg.cap - sc).toNat = (cfg.cap - (sc + 1)).toNat + 1 := by
          omega
        rw [filterLoop, if_neg hc, if_neg hl, hcap]
        cases hp : processRecord E cfg r with
        | none =>
          dsimp only
          rw [List.take_succ_cons, ih]
          simp only [List.filterMap_cons, hp]
        | some out =>
          have hlim : (cfg.lim - ret).toNat = (cfg.lim - (ret + 1)).toNat + 1 := by
            omega
          dsimp only
          rw [ih, List.take_succ_cons]
          simp only [List.filterMap_cons, hp, hlim, List.take_succ_cons]

theorem filterLoop_snd_le (E : Env) (cfg : Cfg) :
    ∀ (recs : List RawRecord) (ret sc : Int),
      (filterLoop E cfg recs ret sc).2 ≤ max cfg.cap sc := by
  intro recs
  induction recs with
  | nil => intro ret sc; simp [filterLoop]
  | cons r rest ih =>
    intro ret sc
    by_cases hc : cfg.cap ≤ sc
    · rw [filterLoop, if_pos hc]; simp
    · by_cases hl : cfg.lim ≤ ret
      · rw [filterLoop, if_neg hc, if_pos hl]; simp
      · rw [filterLoop, if_neg hc, if_neg hl]
        cases hp : processRecord E cfg r with
        | none =>
          dsimp only
          have := ih ret (sc + 1)
          omega
        | some out =>
          dsimp only
          have := ih (ret + 1) (sc + 1)
          omega

/-- What an unconstrained call accepts per record: the payload must be a
nonempty string, it must parse, and a timestamp must resolve (from the
`SystemTime` path or the record's own timestamp); the parsed event is
yielded unprojected.  This is the residue of the loop body once every
filter argument is absent. -/
def noFilterYield (E : Env) (r : RawRecord) : Option JVal :=
  match r.data with
  | .str ds =>
    if ds.isEmpty then none
    else
      match E.parse ds with
      | none => none
      | some data =>
        let ts :=
          getDotted data "Event.System.TimeCreated.#attributes.SystemTime"
        let dt? :=
          match normalize_timestamp E (tvalOfJVal ts) Option.none with
          | some d => some d
          | none => normalize_timestamp E r.timestamp Option.none
        match dt? with
        | none => none
        | some _ => some data
  | _ => none

/-- The normalized state of a call with every filter argument absent. -/
def noFilterCfg (lim cap : Int) : Cfg :=
  { lim := lim
    cap := cap
    start? := Option.none
    end? := Option.none
    contains_lc := []
    not_contains_lc := []
    wanted_ids := []
    fields_norm := Option.none }

theorem processRecord_noFilter (E : Env) (lim cap : Int) (r : RawRecord) :
    processRecord E (noFilterCfg lim cap) r = noFilterYield E r := by
  obtain ⟨d, ts⟩ := r
  cases d with
  | absent => rfl
  | nonstr => rfl
  | str ds =>
    show processRecord E (noFilterCfg lim cap) ⟨.str ds, ts⟩ = _
    rw [processRecord, noFilterYield]
    by_cases he : ds.isEmpty
    · simp [he]
    · simp only [he, if_false, Bool.false_and]
      cases E.parse ds with
      | none => rfl
      | some data => rfl

/-- Arguments of a call with no filtering constraints: only the two
limits vary, every other filter argument keeps its `None` default. -/
def noConstraintArgs (rl sl : IntIn) : Args :=
  { isFile := true
    start := .none
    end_ := .none
    results_limit := rl
    scan_limit := sl
    event_ids := .null
    contains := .null
    not_contains := .null
    fields := .null }

theorem buildCfg_noConstraint (E : Env) (rl sl : IntIn) (l c : Int)
    (h1 : normalize_int rl E.RESULTS_LIMIT = some l)
    (h2 : normalize_int sl E.SCAN_LIMIT = some c) :
    buildCfg E (noConstraintArgs rl sl)
      = some (noFilterCfg (min l E.RESULTS_LIMIT) (min c E.SCAN_LIMIT)) := by
  unfold buildCfg noConstraintArgs
  simp only [h1, h2]
  rfl

/-- C1 (amended): with no filter constraints, the output is exactly the
events of the delivered records that parse and carry a resolvable
timestamp, within the first scan-cap records, in arrival order, truncated
to the result limit — hence neither reordered nor duplicated. -/
theorem unconstrained_filter_arrival_order (E : Env) (rl sl : IntIn)
    (stream : List RawRecord) (failAt : Option Nat) (l c : Int)
    (h1 : normalize_int rl E.RESULTS_LIMIT = some l)
    (h2 : normalize_int sl E.SCAN_LIMIT = some c) :
    iter_events_from_evtx E (noConstraintArgs rl sl) stream failAt
      = (((deliveredRecords stream failAt).take
            (min c E.SCAN_LIMIT).toNat).filterMap
          (noFilterYield E)).take (min l E.RESULTS_LIMIT).toNat := by
  unfold iter_events_from_evtx iterEventsCount
  rw [buildCfg_noConstraint E rl sl l c h1 h2]
  have hfile : (noConstraintArgs rl sl).isFile = true := rfl
  rw [hfile]
  simp only [Bool.not_true, Bool.false_eq_true, if_false]
  rw [filterLoop_fst]
  have hfun : processRecord E (noFilterCfg (min l E.RESULTS_LIMIT)
      (min c E.SCAN_LIMIT)) = noFilterYield E :=
    funext (processRecord_noFilter E _ _)
  rw [hfun]
  norm_num [noFilterCfg]

/-- A concrete environment whose `json.loads` decodes everything to the
empty object, all timestamp parsers fail, and the configuration limits
are 100 results / 200 scanned. -/
def envEmptyObj : Env :=
  { parse := fun _ => some (JVal.obj [])
    fromiso := fun _ => Option.none
    strpFull := fun _ => Option.none
    strpSec := fun _ => Option.none
    strpDate := fun _ => Option.none
    utcNow := 0
    RESULTS_LIMIT := 100
    SCAN_LIMIT := 200 }

/-- A concrete environment where `json.loads` and all timestamp parsers
fail. -/
def envNoParse : Env :=
  { parse := fun _ => Option.none
    fromiso := fun _ => Option.none
    strpFull := fun _ => Option.none
    strpSec := fun _ => Option.none
    strpDate := fun _ => Option.none
    utcNow := 0
    RESULTS_LIMIT := 100
    SCAN_LIMIT := 200 }

/-- What C1 literally promises per record: payload present, textual,
nonempty, and parseable — with no condition on the timestamp. -/
def parsedOnlyYield (E : Env) (r : RawRecord) : Option JVal :=
  match r.data with
  | .str ds => if ds.isEmpty then Option.none else E.parse ds
  | _ => Option.none

/-- C1 as stated is false: this record's payload parses (to the empty
object), yet the unconstrained filter drops it because neither the
`SystemTime` path nor the record timestamp resolves, so the output is not
the result-limit truncation of the parseable-record sequence. -/
theorem unconstrained_filter_not_all_parseable :
    iter_events_from_evtx envEmptyObj (noConstraintArgs .none .none)
        [{ data := .str "x", timestamp := .none }] Option.none
      ≠ (([{ data := .str "x", timestamp := .none }] :
            List RawRecord).filterMap (parsedOnlyYield envEmptyObj)).take
          (min (100 : Int) 100).toNat := by
  intro h
  exact nomatch (show ([] : List JVal) = [JVal.obj []] from h)

/-- Witness for C1's amended theorem at a concrete input: one record with
a parseable payload and a resolvable record timestamp, default limits. -/
theorem unconstrained_filter_arrival_order_witness :
    iter_events_from_evtx envEmptyObj (noConstraintArgs .none .none)
        [{ data := .str "x", timestamp := .dt (.naive 5) }] Option.none
      = (((deliveredRecords
              [{ data := .str "x", timestamp := .dt (.naive 5) }]
              Option.none).take
            (min (200 : Int) envEmptyObj.SCAN_LIMIT).toNat).filterMap
          (noFilterYield envEmptyObj)).take
            (min (100 : Int) envEmptyObj.RESULTS_LIMIT).toNat :=
  unconstrained_filter_arrival_order envEmptyObj .none .none _ Option.none
    100 200 rfl rfl

theorem buildCfg_some (E : Env) (A : Args) (l c : Int)
    (h1 : normalize_int A.results_limit E.RESULTS_LIMIT = some l)
    (h2 : normalize_int A.scan_limit E.SCAN_LIMIT = some c) :
    ∃ cfg, buildCfg E A = some cfg
      ∧ cfg.lim = min l E.RESULTS_LIMIT ∧ cfg.cap = min c E.SCAN_LIMIT := by
  unfold buildCfg
  simp only [h1, h2]
  exact ⟨_, rfl, rfl, rfl⟩

/-- C2: the scan limit strictly bounds the records examined, the result
limit strictly bounds the records yielded, and the loop stops before any
per-record work as soon as either counter has reached its bound. -/
theorem dual_limit_bounds (E : Env) (A : Args) (stream : List RawRecord)
    (failAt : Option Nat) (l c : Int)
    (h1 : normalize_int A.results_limit E.RESULTS_LIMIT = some l)
    (h2 : normalize_int A.scan_limit E.SCAN_LIMIT = some c) :
    (iterEventsCount E A stream failAt).2 ≤ max (min c E.SCAN_LIMIT) 0
    ∧ (iter_events_from_evtx E A stream failAt).length
        ≤ (min l E.RESULTS_LIMIT).toNat
    ∧ ∀ (cfg : Cfg) (r : RawRecord) (rest : List RawRecord) (ret sc : Int),
        cfg.cap ≤ sc ∨ cfg.lim ≤ ret →
        filterLoop E cfg (r :: rest) ret sc = ([], sc) := by
  obtain ⟨cfg, hcfg, hlim, hcap⟩ := buildCfg_some E A l c h1 h2
  refine ⟨?_, ?_, ?_⟩
  · unfold iterEventsCount
    cases hA : A.isFile with
    | false => simp
    | true =>
      simp only [Bool.not_true, Bool.false_eq_true, if_false, hcfg]
      have := filterLoop_snd_le E cfg (deliveredRecords stream failAt) 0 0
      omega
  · unfold iter_events_from_evtx iterEventsCount
    cases hA : A.isFile with
    | false => simp
    | true =>
      simp only [Bool.not_true, Bool.false_eq_true, if_false, hcfg]
      rw [filterLoop_fst]
      have hle := List.length_take_le (cfg.lim - 0).toNat
        (((deliveredRecords stream failAt).take
            (cfg.cap - 0).toNat).filterMap (processRecord E cfg))
      omega
  · intro cfg' r rest ret sc hstop
    rw [filterLoop]
    by_cases hc : cfg'.cap ≤ sc
    · rw [if_pos hc]
    · have hl : cfg'.lim ≤ ret := by tauto
      rw [if_neg hc, if_pos hl]

/-- Witness for C2 at a concrete input: three records, scan cap 2,
result limit 100; the loop scans exactly 2 records and the early-stop
equation fires on a loop state that already reached the cap. -/
theorem dual_limit_bounds_witness :
    ((iterEventsCount envEmptyObj (noConstraintArgs .none (.int 2))
        [{ data := .str "x", timestamp := .dt (.naive 5) },
         { data := .str "x", timestamp := .dt (.naive 6) },
         { data := .str "x", timestamp := .dt (.naive 7) }]
        Option.none).2 ≤ max (min (2 : Int) 200) 0)
    ∧ ((iter_events_from_evtx envEmptyObj (noConstraintArgs .none (.int 2))
        [{ data := .str "x", timestamp := .dt (.naive 5) },
         { data := .str "x", timestamp := .dt (.naive 6) },
         { data := .str "x", timestamp := .dt (.naive 7) }]
        Option.none).length ≤ ((min (100 : Int) 100).toNat))
    ∧ filterLoop envEmptyObj (noFilterCfg 100 2)
        [{ data := .str "x", timestamp := .dt (.naive 5) }] 0 2 = ([], 2) := by
  have h := dual_limit_bounds envEmptyObj (noConstraintArgs .none (.int 2))
    [{ data := .str "x", timestamp := .dt (.naive 5) },
     { data := .str "x", timestamp := .dt (.naive 6) },
     { data := .str "x", timestamp := .dt (.naive 7) }]
    Option.none 100 2 rfl rfl
  exact ⟨h.1, h.2.1, h.2.2 (noFilterCfg 100 2) _ [] 0 2 (Or.inl (by decide))⟩

theorem take_filterMap_prefix {α β : Type} (f : α → Option β) (L k : Nat)
    (xs : List α) :
    ∃ t, (xs.filterMap f).take L = ((xs.take k).filterMap f).take L ++ t := by
  have hsplit : xs = xs.take k ++ xs.drop k := (List.take_append_drop k xs).symm
  refine ⟨((xs.drop k).filterMap f).take
    (L - ((xs.take k).filterMap f).length), ?_⟩
  conv_lhs => rw [hsplit]
  rw [List.filterMap_append, List.take_append_eq_append_take]

/-- C6: an unexpected decoder failure at position `i` mid-iteration is
swallowed by the `try/except`: the call terminates normally, its output is
exactly the output of the same call on the delivered prefix alone, and
that output is a prefix of what the call would have produced had the
decoder not failed. -/
theorem decoder_failure_silent_prefix (E : Env) (A : Args)
    (stream : List RawRecord) (i : Nat) :
    iter_events_from_evtx E A stream (some i)
      = iter_events_from_evtx E A (stream.take i) Option.none
    ∧ ∃ t, iter_events_from_evtx E A stream Option.none
        = iter_events_from_evtx E A stream (some i) ++ t := by
  constructor
  · rfl
  · unfold iter_events_from_evtx iterEventsCount
    cases hA : A.isFile with
    | false => exact ⟨[], rfl⟩
    | true =>
      simp only [Bool.not_true, Bool.false_eq_true, if_false]
      cases hcfg : buildCfg E A with
      | none => exact ⟨[], rfl⟩
      | some cfg =>
        dsimp only
        rw [filterLoop_fst, filterLoop_fst]
        unfold deliveredRecords
        have htt : (stream.take i).take (cfg.cap - 0).toNat
            = (stream.take (cfg.cap - 0).toNat).take i := by
          rw [List.take_take, List.take_take, Nat.min_comm]
        rw [htt]
        exact take_filterMap_prefix (processRecord E cfg) (cfg.lim - 0).toNat
          i (stream.take (cfg.cap - 0).toNat)

/-- C7: a results or scan limit whose normalization yields `None`
short-circuits the call to an empty result (no exception), and when both
normalize the effective limits are the normalized values clamped to the
configured ceilings. -/
theorem invalid_limits_empty_result (E : Env) (A : Args)
    (stream : List RawRecord) (failAt : Option Nat) :
    (normalize_int A.results_limit E.RESULTS_LIMIT = Option.none →
      iter_events_from_evtx E A stream failAt = [])
    ∧ (normalize_int A.scan_limit E.SCAN_LIMIT = Option.none →
      iter_events_from_evtx E A stream failAt = [])
    ∧ ∀ l c, normalize_int A.results_limit E.RESULTS_LIMIT = some l →
        normalize_int A.scan_limit E.SCAN_LIMIT = some c →
        ∃ cfg, buildCfg E A = some cfg
          ∧ cfg.lim = min l E.RESULTS_LIMIT
          ∧ cfg.cap = min c E.SCAN_LIMIT := by
  refine ⟨?_, ?_, ?_⟩
  · intro h
    unfold iter_events_from_evtx iterEventsCount
    cases hA : A.isFile with
    | false => rfl
    | true =>
      have hb : buildCfg E A = Option.none := by
        unfold buildCfg
        simp only [h]
      simp only [Bool.not_true, Bool.false_eq_true, if_false, hb]
  · intro h
    unfold iter_events_from_evtx iterEventsCount
    cases hA : A.isFile with
    | false => rfl
    | true =>
      have hb : buildCfg E A = Option.none := by
        unfold buildCfg
        cases hres : normalize_int A.results_limit E.RESULTS_LIMIT with
        | none => simp only [hres]
        | some l0 => simp only [hres, h]
      simp only [Bool.not_true, Bool.false_eq_true, if_false, hb]
  · intro l c h1 h2
    exact buildCfg_some E A l c h1 h2

/-- Witness for C7 at concrete inputs: a zero results limit gives an
empty result, an unparseable scan-limit string gives an empty result, and
valid limits 7 and 300 clamp to `min 7 100` and `min 300 200`. -/
theorem invalid_limits_empty_result_witness :
    (iter_events_from_evtx envEmptyObj
        { noConstraintArgs .none .none with results_limit := .int 0 }
        [{ data := .str "x", timestamp := .dt (.naive 5) }] Option.none = [])
    ∧ (iter_events_from_evtx envEmptyObj
        { noConstraintArgs .none .none with scan_limit := .str "ten" }
        [{ data := .str "x", timestamp := .dt (.naive 5) }] Option.none = [])
    ∧ ∃ cfg, buildCfg envEmptyObj
          { noConstraintArgs .none .none with
              results_limit := .int 7, scan_limit := .int 300 } = some cfg
        ∧ cfg.lim = min 7 envEmptyObj.RESULTS_LIMIT
        ∧ cfg.cap = min 300 envEmptyObj.SCAN_LIMIT := by
  refine ⟨?_, ?_, ?_⟩
  · exact (invalid_limits_empty_result envEmptyObj
      { noConstraintArgs .none .none with results_limit := .int 0 }
      [{ data := .str "x", timestamp := .dt (.naive 5) }] Option.none).1 rfl
  · exact (invalid_limits_empty_result envEmptyObj
      { noConstraintArgs .none .none with scan_limit := .str "ten" }
      [{ data := .str "x", timestamp := .dt (.naive 5) }] Option.none).2.1 rfl
  · exact (invalid_limits_empty_result envEmptyObj
      { noConstraintArgs .none .none with
          results_limit := .int 7, scan_limit := .int 300 }
      [] Option.none).2.2 7 300 rfl rfl

/-- C8 is false as stated: `normalize_int` takes the `isinstance(value,
int)` branch for `True` (Python `bool` is an `int` subclass), and since
`True > 0` it returns `True`, i.e. the integer 1 — not `None`. -/
theorem normalize_int_accepts_true :
    normalize_int (.bool true) 10 = some 1 := rfl

/-- C8 (amended): only `False` among the booleans is rejected to null;
`True` is accepted through the integer branch and yields 1. -/
theorem normalize_int_bool_branch (d : Int) :
    normalize_int (.bool false) d = Option.none
    ∧ normalize_int (.bool true) d = some 1 :=
  ⟨rfl, rfl⟩

/-- Per-path resolution of `_project_fields`: resolve from the root, and
when that yields `None` retry one level inside the `Event` envelope. -/
def resolveProjected (data : JVal) (f : String) : JVal :=
  let val := getDotted data f
  if val.isNull then getDotted (eventRootOf data) f else val

theorem projectFields_acc (data : JVal) :
    ∀ (fields : List String) (out : List (String × JVal)),
      fields.Nodup → (∀ f ∈ fields, ∀ e ∈ out, e.1 ≠ f) →
      fields.foldl (fun o f => dictSet o f (resolveProjected data f)) out
        = out ++ fields.map (fun f => (f, resolveProjected data f)) := by
  intro fields
  induction fields with
  | nil => intro out _ _; simp
  | cons f rest ih =>
    intro out hnd hdisj
    rw [List.foldl_cons]
    have hnot : out.any (fun e => e.1 == f) = false := by
      rw [List.any_eq_false]
      intro e he
      simpa using hdisj f (by simp) e he
    have hstep : dictSet out f (resolveProjected data f)
        = out ++ [(f, resolveProjected data f)] := by
      unfold dictSet
      rw [hnot]
      simp
    rw [hstep, ih (out ++ [(f, resolveProjected data f)])
      (List.Nodup.of_cons hnd) ?_]
    · simp
    · intro g hg e he
      rcases List.mem_append.mp he with h1 | h2
      · exact hdisj g (by simp [hg]) e h1
      · have he2 : e = (f, resolveProjected data f) := by simpa using h2
        subst he2
        have hf : f ∉ rest := (List.nodup_cons.mp hnd).1
        intro hfg
        have hfg2 : f = g := hfg
        exact hf (hfg2.symm ▸ hg)

/-- C3: on a de-duplicated path list, projection returns exactly one
entry per requested path, keyed by the path string verbatim, in input
order, with the value resolved from the root and, when that gives `None`,
retried inside the `Event` envelope (a doubly-failed path maps to null). -/
theorem projection_one_entry_per_path (data : JVal) (fields : List String)
    (hnd : fields.Nodup) :
    projectFields data fields
      = fields.map (fun f => (f, resolveProjected data f)) := by
  have h := projectFields_acc data fields []
    hnd (by intro f _ e he; simp at he)
  simpa using h

/-- Witness for C3 at a concrete input: a two-path projection over an
event whose `a` resolves only through the `Event` envelope and whose `b`
resolves nowhere. -/
theorem projection_one_entry_per_path_witness :
    projectFields (JVal.obj [("Event", JVal.obj [("a", JVal.int 1)])])
        ["a", "b"]
      = ["a", "b"].map (fun f =>
          (f, resolveProjected
            (JVal.obj [("Event", JVal.obj [("a", JVal.int 1)])]) f)) :=
  projection_one_entry_per_path
    (JVal.obj [("Event", JVal.obj [("a", JVal.int 1)])]) ["a", "b"]
    (by decide)

/-- Whether a (stripped) character list starts and ends with a matching
wrapping delimiter pair — the loop condition of the quote normalizer. -/
def hasWrapPair : List Char → Bool
  | c1 :: c2 :: rest =>
    match closerOf c1 with
    | some closer => (c2 :: rest).getLast (List.cons_ne_nil _ _) == closer
    | none => false
  | _ => false

theorem nwqL_fixed (l : List Char) (hstrip : pyStrip l = l)
    (hwp : hasWrapPair l = false) : nwqL l = l := by
  unfold nwqL
  cases l with
  | nil => rfl
  | cons c cs =>
    simp only [List.length_cons]
    rw [nwqFuel]
    simp only [hstrip]
    cases cs with
    | nil => rfl
    | cons c2 rest =>
      dsimp only
      cases hc : closerOf c with
      | none => rfl
      | some closer =>
        dsimp only
        rw [hasWrapPair] at hwp
        simp only [hc] at hwp
        have hne : (c2 :: rest).getLast (List.cons_ne_nil _ _) ≠ closer := by
          simpa using hwp
        rw [if_neg hne]

/-- One wrapping layer around a character list. -/
def wrapPair (p : Char × Char) (l : List Char) : List Char :=
  p.1 :: (l ++ [p.2])

theorem quotePairs_spec (p : Char × Char) (hp : p ∈ quotePairs) :
    closerOf p.1 = some p.2 ∧ isPyWs p.1 = false ∧ isPyWs p.2 = false := by
  fin_cases hp <;> exact ⟨rfl, rfl, rfl⟩

theorem pyStrip_wrap (c1 c2 : Char) (l : List Char)
    (h1 : isPyWs c1 = false) (h2 : isPyWs c2 = false) :
    pyStrip (c1 :: (l ++ [c2])) = c1 :: (l ++ [c2]) := by
  unfold pyStrip
  rw [List.dropWhile_cons, if_neg (by simp [h1])]
  have hrev : (c1 :: (l ++ [c2])).reverse = c2 :: (l.reverse ++ [c1]) := by
    simp
  rw [hrev, List.dropWhile_cons, if_neg (by simp [h2]), ← hrev,
    List.reverse_reverse]

theorem nwqL_wrap (p : Char × Char) (hp : p ∈ quotePairs) (l : List Char) :
    nwqL (wrapPair p l) = nwqL l := by
  obtain ⟨hclo, hw1, hw2⟩ := quotePairs_spec p hp
  obtain ⟨c2, rest, heq⟩ : ∃ h t, l ++ [p.2] = h :: t := by
    cases hl : l ++ [p.2] with
    | nil => exact absurd hl (by simp)
    | cons h t => exact ⟨h, t, rfl⟩
  have hlen : (wrapPair p l).length = l.length + 2 := by
    simp [wrapPair]
  unfold nwqL
  rw [hlen]
  show nwqFuel (l.length + 1 + 1) (wrapPair p l) = nwqFuel l.length l
  rw [nwqFuel]
  have hps : pyStrip (wrapPair p l) = p.1 :: (c2 :: rest) := by
    rw [show wrapPair p l = p.1 :: (l ++ [p.2]) from rfl,
      pyStrip_wrap p.1 p.2 l hw1 hw2, heq]
  simp only [hps]
  simp only [hclo]
  have hlast : (c2 :: rest).getLast (List.cons_ne_nil _ _) = p.2 := by
    have h? : (c2 :: rest).getLast? = some p.2 := by
      rw [← heq]
      exact List.getLast?_concat l
    rwa [List.getLast?_eq_getLast _ (List.cons_ne_nil _ _),
      Option.some_inj] at h?
  rw [if_pos hlast]
  have hdl : (c2 :: rest).dropLast = l := by
    rw [← heq]
    exact List.dropLast_concat
  rw [hdl]
  exact nwqFuel_fuel_irrel l.length l (Nat.le_refl _)

/-- C9 (amended): the quote normalizer leaves every
whitespace-trimmed string with no wrapping delimiter pair unchanged, and
fully unwraps any number of nested (possibly mixed) wrapping layers. -/
theorem quote_normalizer_noop_and_unwrap :
    (∀ s : String, pyStripS s = s → hasWrapPair s.data = false →
      normalize_wrapping_quotes s = s)
    ∧ ∀ (ps : List (Char × Char)) (core : String),
        (∀ p ∈ ps, p ∈ quotePairs) →
        normalize_wrapping_quotes (String.mk (ps.foldr wrapPair core.data))
          = normalize_wrapping_quotes core := by
  constructor
  · intro s hs hwp
    have hdata : pyStrip s.data = s.data := congrArg String.data hs
    show String.mk (nwqL s.data) = s
    rw [nwqL_fixed s.data hdata hwp]
  · intro ps core hps
    induction ps with
    | nil => rfl
    | cons p ps ih =>
      have hp : p ∈ quotePairs := hps p (by simp)
      show String.mk (nwqL (wrapPair p (ps.foldr wrapPair core.data)))
        = normalize_wrapping_quotes core
      rw [nwqL_wrap p hp]
      exact ih (fun q hq => hps q (by simp [hq]))

/-- C9 as stated is false: `" a "` carries no wrapping delimiter pair,
yet the normalizer changes it (it strips the whitespace first). -/
theorem quote_normalizer_not_noop_on_unquoted :
    hasWrapPair (String.data " a ") = false
    ∧ normalize_wrapping_quotes " a " ≠ " a " := by
  exact ⟨rfl, by decide⟩

/-- Witness for C9's amended theorem: the trimmed unquoted "abc" is
unchanged, and two mixed layers around "hi" unwrap to "hi". -/
theorem quote_normalizer_noop_and_unwrap_witness :
    normalize_wrapping_quotes "abc" = "abc"
    ∧ normalize_wrapping_quotes
        (String.mk ([('«', '»'), ('\'', '\'')].foldr wrapPair
          (String.data "hi")))
      = normalize_wrapping_quotes "hi" := by
  constructor
  · exact quote_normalizer_noop_and_unwrap.1 "abc" (by decide) (by decide)
  · exact quote_normalizer_noop_and_unwrap.2 [('«', '»'), ('\'', '\'')]
      "hi" (by decide)

theorem normBound_some (E : Env) (v : TVal) (hv : v ≠ TVal.none) :
    ∃ a, normBound E v = some a := by
  cases v with
  | none => exact absurd rfl hv
  | dt d => exact ⟨d.toUTC, rfl⟩
  | str s =>
    show ∃ a, normalize_timestamp E (.str s) (some E.utcNow) = some a
    simp only [normalize_timestamp]
    cases hp : parseTimestampStr E s with
    | none => exact ⟨E.utcNow, rfl⟩
    | some i => exact ⟨i, rfl⟩
  | other => exact ⟨E.utcNow, rfl⟩

/-- C5: when both time bounds are provided, swapping the `start` and
`end` arguments leaves the output unchanged (reversed bounds are
auto-swapped), and the range test against the ordered bounds is inclusive
at both ends. -/
theorem time_bounds_swap (E : Env) (A : Args) (stream : List RawRecord)
    (failAt : Option Nat) (u v : TVal)
    (hu : u ≠ TVal.none) (hv : v ≠ TVal.none) :
    iter_events_from_evtx E { A with start := u, end_ := v } stream failAt
      = iter_events_from_evtx E { A with start := v, end_ := u } stream failAt
    ∧ ∀ a b d : Int,
        (timeOk (some a) (some b) d = true ↔ a ≤ d ∧ d ≤ b) := by
  constructor
  · obtain ⟨a, ha⟩ := normBound_some E u hu
    obtain ⟨b, hb⟩ := normBound_some E v hv
    have hbody : ∀ lim0 cap0 : Int,
        cfgBody E { A with start := u, end_ := v } lim0 cap0
          = cfgBody E { A with start := v, end_ := u } lim0 cap0 := by
      intro lim0 cap0
      unfold cfgBody
      dsimp only
      rw [ha, hb]
      dsimp only
      by_cases hab : b < a
      · rw [if_pos hab, if_neg (by omega : ¬ a < b)]
      · by_cases hba : a < b
        · rw [if_neg hab, if_pos hba]
        · have heq : a = b := by omega
          subst heq
          rfl
    have hbc : buildCfg E { A with start := u, end_ := v }
        = buildCfg E { A with start := v, end_ := u } := by
      unfold buildCfg
      dsimp only
      cases hres : normalize_int A.results_limit E.RESULTS_LIMIT with
      | none => rfl
      | some lim0 =>
        dsimp only
        cases hscan : normalize_int A.scan_limit E.SCAN_LIMIT with
        | none => rfl
        | some cap0 =>
          dsimp only
          rw [hbody]
    unfold iter_events_from_evtx iterEventsCount
    dsimp only
    rw [hbc]
  · intro a b d
    constructor
    · intro h
      simp only [timeOk, Bool.and_eq_true, Bool.not_eq_true',
        decide_eq_false_iff_not] at h
      omega
    · intro h
      simp only [timeOk, Bool.and_eq_true, Bool.not_eq_true',
        decide_eq_false_iff_not]
      omega

theorem deOverlap_cancel (c0 n0 : List String)
    (hset : ∀ s, s ∈ c0 ↔ s ∈ n0) : deOverlap c0 n0 = ([], []) := by
  unfold deOverlap
  by_cases hc : c0 = []
  · have hn : n0 = [] := by
      subst hc
      exact List.eq_nil_iff_forall_not_mem.mpr
        (fun s hs => by simpa using (hset s).mpr hs)
    subst hc
    subst hn
    rfl
  · have hov : c0.filter (fun s => n0.contains s) = c0 :=
      List.filter_eq_self.mpr
        (fun s hs => List.elem_eq_true_of_mem ((hset s).mp hs))
    have hnn : n0 ≠ [] := by
      obtain ⟨x, xs, hx⟩ := List.exists_cons_of_ne_nil hc
      intro h0
      have hmem : x ∈ n0 := (hset x).mp (by rw [hx]; exact List.mem_cons_self _ _)
      rw [h0] at hmem
      simp at hmem
    have hce : c0.isEmpty = false := by
      cases c0 with
      | nil => exact absurd rfl hc
      | cons a as => rfl
    have hne : n0.isEmpty = false := by
      cases n0 with
      | nil => exact absurd rfl hnn
      | cons a as => rfl
    rw [if_pos (by rw [hce, hne]; rfl), hov, if_pos (by rw [hce]; rfl)]
    have h1 : c0.filter (fun s => !c0.contains s) = [] :=
      List.filter_eq_nil_iff.mpr (fun s hs => by simpa using hs)
    have h2 : n0.filter (fun s => !c0.contains s) = [] :=
      List.filter_eq_nil_iff.mpr (fun s hs => by
        simpa using (hset s).mpr hs)
    rw [h1, h2]

/-- C4: when the two normalized keyword sets contain the same terms, the
overlap removal empties both, so the call behaves exactly as one with no
keyword filters at all; and in general any term present in both
normalized sets is removed from both before filtering. -/
theorem overlapping_keywords_cancel (E : Env) (A : Args)
    (stream : List RawRecord) (failAt : Option Nat) (cv nv : JVal)
    (hset : ∀ s, s ∈ normalize_str_list E.parse cv true
      ↔ s ∈ normalize_str_list E.parse nv true) :
    (iter_events_from_evtx E { A with contains := cv, not_contains := nv }
        stream failAt
      = iter_events_from_evtx E
          { A with contains := .null, not_contains := .null } stream failAt)
    ∧ ∀ (c0 n0 : List String) (s : String), s ∈ c0 → s ∈ n0 →
        s ∉ (deOverlap c0 n0).1 ∧ s ∉ (deOverlap c0 n0).2 := by
  constructor
  case right =>
    intro c0 n0 s hsc hsn
    have hovm : s ∈ c0.filter (fun t => n0.contains t) :=
      List.mem_filter.mpr ⟨hsc, List.elem_eq_true_of_mem hsn⟩
    unfold deOverlap
    have houter : (!c0.isEmpty && !n0.isEmpty) = true := by
      cases c0 with
      | nil => simp at hsc
      | cons a as =>
        cases n0 with
        | nil => simp at hsn
        | cons b bs => rfl
    rw [if_pos houter]
    have hinner : (!(c0.filter (fun t => n0.contains t)).isEmpty) = true := by
      cases hfe : c0.filter (fun t => n0.contains t) with
      | nil => rw [hfe] at hovm; simp at hovm
      | cons a as => rfl
    rw [if_pos hinner]
    have hcont : (c0.filter (fun t => n0.contains t)).contains s = true :=
      List.elem_eq_true_of_mem hovm
    constructor
    · intro hmem
      have hpred := (List.mem_filter.mp hmem).2
      rw [hcont] at hpred
      exact absurd hpred (by simp)
    · intro hmem
      have hpred := (List.mem_filter.mp hmem).2
      rw [hcont] at hpred
      exact absurd hpred (by simp)
  case left =>
    have hbody : ∀ lim0 cap0 : Int,
        cfgBody E { A with contains := cv, not_contains := nv } lim0 cap0
          = cfgBody E { A with contains := .null, not_contains := .null }
              lim0 cap0 := by
      intro lim0 cap0
      unfold cfgBody
      dsimp only
      rw [deOverlap_cancel _ _ hset]
      rfl
    have hbc : buildCfg E { A with contains := cv, not_contains := nv }
        = buildCfg E { A with contains := .null, not_contains := .null } := by
      unfold buildCfg
      dsimp only
      cases hres : normalize_int A.results_limit E.RESULTS_LIMIT with
      | none => rfl
      | some lim0 =>
        dsimp only
        cases hscan : normalize_int A.scan_limit E.SCAN_LIMIT with
        | none => rfl
        | some cap0 =>
          dsimp only
          rw [hbody]
    unfold iter_events_from_evtx iterEventsCount
    dsimp only
    rw [hbc]

/-- Witness for C5 at a concrete input: reversed datetime bounds give the
same output as the ordered ones. -/
theorem time_bounds_swap_witness :
    (iter_events_from_evtx envNoParse
        { noConstraintArgs .none .none with
            start := .dt (.naive 3), end_ := .dt (.naive 1) }
        [{ data := .str "x", timestamp := .dt (.naive 2) }] Option.none
      = iter_events_from_evtx envNoParse
          { noConstraintArgs .none .none with
              start := .dt (.naive 1), end_ := .dt (.naive 3) }
          [{ data := .str "x", timestamp := .dt (.naive 2) }] Option.none)
    ∧ ∀ a b d : Int,
        (timeOk (some a) (some b) d = true ↔ a ≤ d ∧ d ≤ b) :=
  time_bounds_swap envNoParse (noConstraintArgs .none .none)
    [{ data := .str "x", timestamp := .dt (.naive 2) }] Option.none
    (.dt (.naive 3)) (.dt (.naive 1)) (by decide) (by decide)

/-- Witness for C4 at a concrete input: identical one-term include and
exclude keyword arguments behave as no keyword filters. -/
theorem overlapping_keywords_cancel_witness :
    (iter_events_from_evtx envEmptyObj
        { noConstraintArgs .none .none with
            contains := .str "foo", not_contains := .str "foo" }
        [{ data := .str "x", timestamp := .dt (.naive 5) }] Option.none
      = iter_events_from_evtx envEmptyObj
          { noConstraintArgs .none .none with
              contains := .null, not_contains := .null }
          [{ data := .str "x", timestamp := .dt (.naive 5) }] Option.none)
    ∧ ∀ (c0 n0 : List String) (s : String), s ∈ c0 → s ∈ n0 →
        s ∉ (deOverlap c0 n0).1 ∧ s ∉ (deOverlap c0 n0).2 :=
  overlapping_keywords_cancel envEmptyObj (noConstraintArgs .none .none)
    [{ data := .str "x", timestamp := .dt (.naive 5) }] Option.none
    (.str "foo") (.str "foo") (fun _ => Iff.rfl)

/-- C10: a non-null string bound that fails every timestamp parse is not
ignored — `normalize_timestamp` returns its fallback `utc_now`, so the
normalized filter state carries `utc_now` in place of that bound and the
range test runs against it. -/
theorem unparseable_bound_becomes_now (E : Env) (A : Args) (s : String)
    (hfail : parseTimestampStr E s = Option.none) :
    normalize_timestamp E (.str s) (some E.utcNow) = some E.utcNow
    ∧ (∀ lim0 cap0 : Int,
        (cfgBody E { A with start := .str s, end_ := .none } lim0
            cap0).start? = some E.utcNow
        ∧ (cfgBody E { A with start := .str s, end_ := .none } lim0
            cap0).end? = Option.none)
    ∧ (∀ lim0 cap0 : Int,
        (cfgBody E { A with start := .none, end_ := .str s } lim0
            cap0).end? = some E.utcNow
        ∧ (cfgBody E { A with start := .none, end_ := .str s } lim0
            cap0).start? = Option.none) := by
  have hnb : normBound E (.str s) = some E.utcNow := by
    show normalize_timestamp E (.str s) (some E.utcNow) = some E.utcNow
    simp only [normalize_timestamp, hfail]
  refine ⟨hnb, ?_, ?_⟩
  · intro lim0 cap0
    unfold cfgBody
    dsimp only
    rw [hnb]
    exact ⟨rfl, rfl⟩
  · intro lim0 cap0
    unfold cfgBody
    dsimp only
    rw [hnb]
    exact ⟨rfl, rfl⟩

/-- Witness for C10 at a concrete input: the unparseable bound "garbage"
in an environment whose parsers all fail, with `utc_now = 0`. -/
theorem unparseable_bound_becomes_now_witness :
    normalize_timestamp envNoParse (.str "garbage")
        (some envNoParse.utcNow) = some envNoParse.utcNow
    ∧ (∀ lim0 cap0 : Int,
        (cfgBody envNoParse
            { noConstraintArgs .none .none with
                start := .str "garbage", end_ := .none } lim0
            cap0).start? = some envNoParse.utcNow
        ∧ (cfgBody envNoParse
            { noConstraintArgs .none .none with
                start := .str "garbage", end_ := .none } lim0
            cap0).end? = Option.none)
    ∧ (∀ lim0 cap0 : Int,
        (cfgBody envNoParse
            { noConstraintArgs .none .none with
                start := .none, end_ := .str "garbage" } lim0
            cap0).end? = some envNoParse.utcNow
        ∧ (cfgBody envNoParse
            { noConstraintArgs .none .none with
                start := .none, end_ := .str "garbage" } lim0
            cap0).start? = Option.none) :=
  unparseable_bound_becomes_now envNoParse (noConstraintArgs .none .none)
    "garbage" rfl
